import Mathlib

/-!
Shallow embedding of the stock forecasting core of the MUFG Financial
Assistant backend (src/chatbot-app-backend/main.py).

Prices are modelled as rationals.  The one-step predictor (the loaded
Keras model together with its reshape plumbing) is an abstract oracle
from the scaled window to one scaled prediction, and the per-step draws
from the numpy normal distribution are an abstract shock sequence: the
properties under study hold for every value these can take, so nothing
is lost by quantifying over them.
-/

namespace MUFG

/-- Last `n` elements of a list, as the numpy slice `l[-n:]` (the whole
list when `n` exceeds the length). -/
def takeLast {α : Type} (n : ℕ) (l : List α) : List α := l.drop (l.length - n)

/-- MinMaxScaler fitted on the Close column (main.py lines 278-281):
`transform` maps a raw price `x` to `(x - dataMin) / range`, and
`inverse_transform` maps a scaled value back. -/
structure Scaler where
  dataMin : ℚ
  range : ℚ

def Scaler.transform (sc : Scaler) (x : ℚ) : ℚ := (x - sc.dataMin) / sc.range

def Scaler.inverseTransform (sc : Scaler) (y : ℚ) : ℚ := y * sc.range + sc.dataMin

/-- `np.clip(a, lo, hi)`, i.e. `np.minimum(np.maximum(a, lo), hi)`. -/
def npClip (x lo hi : ℚ) : ℚ := min (max x lo) hi

/-- Lines 311-314: clamp the shocked prediction to
`[prev - prev * 0.2, prev + prev * 0.2]`, then floor it at `prev * 0.5`. -/
def clampFloorStep (adjusted prev : ℚ) : ℚ :=
  max (npClip adjusted (prev - prev * 0.2) (prev + prev * 0.2)) (prev * 0.5)

/-- The clamp of lines 312-313 alone, without the line-314 floor. -/
def clampOnlyStep (adjusted prev : ℚ) : ℚ :=
  npClip adjusted (prev - prev * 0.2) (prev + prev * 0.2)

/-- Initial scaled window: the last `lb` closes passed through the fitted
scaler (lines 284-285 and 294). -/
def initWindow (sc : Scaler) (closes : List ℚ) (lb : ℕ) : List ℚ :=
  (takeLast lb closes).map sc.transform

/-- The price recorded at step `i` of the day loop (lines 301-314), given
the state `st = (current_sequence, predictions)` at the top of that
iteration: the raw inverse-transformed oracle output at step 0; the
shocked, clamped and floored value from step 1 on, with
`prev = predictions[-1]` falling back to the last historical close. -/
def nextPredOf (oracle : List ℚ → ℚ) (sc : Scaler) (shocks : ℕ → ℚ) (lastClose : ℚ)
    (lb : ℕ) (st : List ℚ × List ℚ) (i : ℕ) : ℚ :=
  let rawPred := sc.inverseTransform (oracle (takeLast lb st.1))
  if 0 < i then
    clampFloorStep (rawPred + rawPred * shocks i) (st.2.getLast?.getD lastClose)
  else rawPred

/-- One iteration of the day loop (lines 300-318): record the price of the day
and append its scaled form to `current_sequence` (note: `np.append` only
appends, nothing is dropped from the stored sequence). -/
def simStep (oracle : List ℚ → ℚ) (sc : Scaler) (shocks : ℕ → ℚ) (lastClose : ℚ)
    (lb : ℕ) (st : List ℚ × List ℚ) (i : ℕ) : List ℚ × List ℚ :=
  (st.1 ++ [sc.transform (nextPredOf oracle sc shocks lastClose lb st i)],
   st.2 ++ [nextPredOf oracle sc shocks lastClose lb st i])

/-- State of the simulation after `n` iterations of the day loop. -/
def simRun (oracle : List ℚ → ℚ) (sc : Scaler) (shocks : ℕ → ℚ) (closes : List ℚ)
    (lb : ℕ) : ℕ → List ℚ × List ℚ
  | 0 => (initWindow sc closes lb, [])
  | n + 1 => simStep oracle sc shocks (closes.getLast?.getD 0) lb
      (simRun oracle sc shocks closes lb n) n

/-- The price recorded at step `i` during the run. -/
def recorded (oracle : List ℚ → ℚ) (sc : Scaler) (shocks : ℕ → ℚ) (closes : List ℚ)
    (lb i : ℕ) : ℚ :=
  nextPredOf oracle sc shocks (closes.getLast?.getD 0) lb
    (simRun oracle sc shocks closes lb i) i

/-- Trading-calendar model for `pd.bdate_range`: day numbers modulo 7,
days 0-4 weekdays, days 5-6 weekend (no holiday exclusion). -/
def nextBusinessDayFrom (d : ℕ) : ℕ :=
  if d % 7 < 5 then d else if d % 7 = 5 then d + 2 else d + 1

/-- Modelled from the library contract of `pd.bdate_range(start, periods)`
(line 291): the first `periods` business days on or after `start`. -/
def bdateRange (startDay : ℕ) : ℕ → List ℕ
  | 0 => []
  | n + 1 => nextBusinessDayFrom startDay ::
      bdateRange (nextBusinessDayFrom startDay + 1) n

/-- Lines 283-320, `predict_future_years_realistic`: the pair
`(future_dates, predictions)` for a `years`-year horizon at 252 trading
days per year.  `lastDate` models `stock_data.index[-1]`. -/
def predict_future_years_realistic (oracle : List ℚ → ℚ) (sc : Scaler) (shocks : ℕ → ℚ)
    (closes : List ℚ) (lastDate : ℕ) (years lb : ℕ) : List ℕ × List ℚ :=
  (bdateRange (lastDate + 1) (years * 252),
   (simRun oracle sc shocks closes lb (years * 252)).2)

theorem takeLast_length {α : Type} (n : ℕ) (l : List α) :
    (takeLast n l).length = min n l.length := by
  simp [takeLast]
  omega

theorem simRun_preds_length (oracle : List ℚ → ℚ) (sc : Scaler) (shocks : ℕ → ℚ)
    (closes : List ℚ) (lb : ℕ) (n : ℕ) :
    (simRun oracle sc shocks closes lb n).2.length = n := by
  induction n with
  | zero => rfl
  | succ n ih => simp [simRun, simStep, ih]

theorem simRun_succ_preds (oracle : List ℚ → ℚ) (sc : Scaler) (shocks : ℕ → ℚ)
    (closes : List ℚ) (lb : ℕ) (n : ℕ) :
    (simRun oracle sc shocks closes lb (n + 1)).2 =
      (simRun oracle sc shocks closes lb n).2 ++
        [recorded oracle sc shocks closes lb n] := rfl

theorem simRun_buf_length (oracle : List ℚ → ℚ) (sc : Scaler) (shocks : ℕ → ℚ)
    (closes : List ℚ) (lb : ℕ) (n : ℕ) :
    (simRun oracle sc shocks closes lb n).1.length =
      (initWindow sc closes lb).length + n := by
  induction n with
  | zero => rfl
  | succ n ih => simp [simRun, simStep, ih]; omega

theorem bdateRange_length (startDay n : ℕ) :
    (bdateRange startDay n).length = n := by
  induction n generalizing startDay with
  | zero => rfl
  | succ n ih => simp [bdateRange, ih]

/-- The prices recorded up to step `m` read back positionally: entry `i`
of the prediction list is the step-`i` recorded price. -/
theorem simRun_preds_getD (oracle : List ℚ → ℚ) (sc : Scaler) (shocks : ℕ → ℚ)
    (closes : List ℚ) (lb : ℕ) (m i : ℕ) (h : i < m) :
    (simRun oracle sc shocks closes lb m).2.getD i 0 =
      recorded oracle sc shocks closes lb i := by
  induction m with
  | zero => omega
  | succ m ih =>
    rw [simRun_succ_preds]
    rcases Nat.lt_or_ge i m with hlt | hge
    · rw [List.getD_append _ _ _ _ (by rw [simRun_preds_length]; exact hlt)]
      exact ih hlt
    · have him : i = m := by omega
      subst him
      rw [List.getD_eq_getElem?_getD, List.getElem?_append_right
        (by rw [simRun_preds_length])]
      simp [simRun_preds_length]

/-- When the previous price is positive the clamp output lies in
`[prev - 0.2 prev, prev + 0.2 prev]` and the floor at `0.5 prev` is inert. -/
theorem clampFloorStep_bounds (a prev : ℚ) (hp : 0 < prev) :
    prev - prev * 0.2 ≤ clampFloorStep a prev ∧
      clampFloorStep a prev ≤ prev + prev * 0.2 := by
  unfold clampFloorStep npClip
  constructor
  · refine le_trans ?_ (le_max_left _ _)
    exact le_min (le_trans (by linarith) (le_max_right a _)) (by linarith)
  · refine max_le (min_le_right _ _) (by linarith)

/-- Claim C10: with positive previous price, the floor `max(·, prev * 0.5)`
applied after the clamp to `[prev - 0.2 prev, prev + 0.2 prev]` never
changes the value, so the per-step clamp-and-floor equals the clamp alone. -/
theorem floor_subsumed (a prev : ℚ) (hp : 0 < prev) :
    clampFloorStep a prev = clampOnlyStep a prev := by
  unfold clampFloorStep clampOnlyStep npClip
  refine max_eq_left ?_
  refine le_min (le_trans (by linarith) (le_max_right a _)) (by linarith)

theorem floor_subsumed_check :
    0 < (1 : ℚ) ∧ clampFloorStep 7 1 = clampOnlyStep 7 1 :=
  ⟨by norm_num, floor_subsumed 7 1 (by norm_num)⟩

/-- At any step `i ≥ 1`, the previous recorded price seen by the step is
entry `i - 1` of the prediction list. -/
theorem simRun_prev_eq (oracle : List ℚ → ℚ) (sc : Scaler) (shocks : ℕ → ℚ)
    (closes : List ℚ) (lb i : ℕ) (hi : 0 < i) :
    (simRun oracle sc shocks closes lb i).2.getLast?.getD (closes.getLast?.getD 0) =
      recorded oracle sc shocks closes lb (i - 1) := by
  obtain ⟨j, rfl⟩ : ∃ j, i = j + 1 := ⟨i - 1, by omega⟩
  rw [simRun_succ_preds, List.getLast?_concat]
  simp

/-- Claim C1: in every simulated path, for every step `i > 0` whose
previous recorded price is positive, the recorded price moves by at most
20 percent of the previous one, because the shocked prediction is clamped
to `[prev - 0.2 prev, prev + 0.2 prev]` before being recorded. -/
theorem clamp_invariant (oracle : List ℚ → ℚ) (sc : Scaler) (shocks : ℕ → ℚ)
    (closes : List ℚ) (lastDate years lb i : ℕ) (hi : 0 < i) (hin : i < years * 252)
    (hprev : 0 <
      (predict_future_years_realistic oracle sc shocks closes lastDate years lb).2.getD
        (i - 1) 0) :
    |(predict_future_years_realistic oracle sc shocks closes lastDate years lb).2.getD i 0 -
        (predict_future_years_realistic oracle sc shocks closes lastDate years lb).2.getD
          (i - 1) 0| ≤
      0.2 * (predict_future_years_realistic oracle sc shocks closes lastDate years lb).2.getD
        (i - 1) 0 := by
  unfold predict_future_years_realistic at *
  rw [simRun_preds_getD _ _ _ _ _ _ _ hin, simRun_preds_getD _ _ _ _ _ _ _ (by omega)] at *
  set prev := recorded oracle sc shocks closes lb (i - 1) with hprevdef
  have hrec : recorded oracle sc shocks closes lb i =
      clampFloorStep
        (sc.inverseTransform (oracle (takeLast lb (simRun oracle sc shocks closes lb i).1)) +
          sc.inverseTransform (oracle (takeLast lb (simRun oracle sc shocks closes lb i).1)) *
            shocks i)
        prev := by
    rw [hprevdef, ← simRun_prev_eq oracle sc shocks closes lb i hi]
    simp [recorded, nextPredOf, hi]
  rw [hrec]
  have hb := clampFloorStep_bounds
    (sc.inverseTransform (oracle (takeLast lb (simRun oracle sc shocks closes lb i).1)) +
      sc.inverseTransform (oracle (takeLast lb (simRun oracle sc shocks closes lb i).1)) *
        shocks i) prev hprev
  rw [abs_le]
  constructor <;> [linarith [hb.1]; linarith [hb.2]]

/-- A concrete oracle for sanity checks: always predicts scaled value 1. -/
def oneOracle : List ℚ → ℚ := fun _ => 1

/-- A concrete identity-like scaler: dataMin 0, range 1. -/
def idScaler : Scaler := ⟨0, 1⟩

/-- A concrete shock sequence: no randomness. -/
def zeroShocks : ℕ → ℚ := fun _ => 0

/-- A concrete one-point close history. -/
def oneClose : List ℚ := [1]

theorem concrete_head_pos :
    0 < (predict_future_years_realistic oneOracle idScaler zeroShocks oneClose 0 1 1).2.getD
      0 0 := by
  unfold predict_future_years_realistic
  rw [simRun_preds_getD _ _ _ _ _ _ _ (by norm_num)]
  simp [recorded, nextPredOf, Scaler.inverseTransform, oneOracle, idScaler]

theorem clamp_invariant_check :
    0 < (predict_future_years_realistic oneOracle idScaler zeroShocks oneClose 0 1 1).2.getD
        0 0 ∧
      |(predict_future_years_realistic oneOracle idScaler zeroShocks oneClose 0 1 1).2.getD
            1 0 -
          (predict_future_years_realistic oneOracle idScaler zeroShocks oneClose 0 1 1).2.getD
            0 0| ≤
        0.2 * (predict_future_years_realistic oneOracle idScaler zeroShocks oneClose
          0 1 1).2.getD 0 0 :=
  ⟨concrete_head_pos,
   clamp_invariant oneOracle idScaler zeroShocks oneClose 0 1 1 1 (by norm_num)
     (by norm_num) concrete_head_pos⟩

/-- Claim C2: the first simulated price is exactly the scaler
inverse-transform of the first oracle output, with no shock, clamp or
floor; every later step records the shocked, clamped and floored value. -/
theorem day1_exactness (oracle : List ℚ → ℚ) (sc : Scaler) (shocks : ℕ → ℚ)
    (closes : List ℚ) (lastDate years lb : ℕ) (hy : 1 ≤ years) :
    (predict_future_years_realistic oracle sc shocks closes lastDate years lb).2.getD 0 0 =
        sc.inverseTransform (oracle (takeLast lb (initWindow sc closes lb))) ∧
      ∀ i, 0 < i → i < years * 252 →
        (predict_future_years_realistic oracle sc shocks closes lastDate years lb).2.getD
            i 0 =
          clampFloorStep
            (sc.inverseTransform
                (oracle (takeLast lb (simRun oracle sc shocks closes lb i).1)) +
              sc.inverseTransform
                  (oracle (takeLast lb (simRun oracle sc shocks closes lb i).1)) *
                shocks i)
            ((predict_future_years_realistic oracle sc shocks closes lastDate
              years lb).2.getD (i - 1) 0) := by
  unfold predict_future_years_realistic
  constructor
  · rw [simRun_preds_getD _ _ _ _ _ _ _ (by nlinarith)]
    simp [recorded, nextPredOf, simRun]
  · intro i hi hin
    rw [simRun_preds_getD _ _ _ _ _ _ _ hin, simRun_preds_getD _ _ _ _ _ _ _ (by omega)]
    rw [← simRun_prev_eq oracle sc shocks closes lb i hi]
    simp [recorded, nextPredOf, hi]

theorem day1_exactness_check :
    (predict_future_years_realistic oneOracle idScaler zeroShocks oneClose 0 1 1).2.getD
        0 0 =
      idScaler.inverseTransform (oneOracle (takeLast 1 (initWindow idScaler oneClose 1))) :=
  (day1_exactness oneOracle idScaler zeroShocks oneClose 0 1 1 (by norm_num)).1

/-- Claim C3: for every request with `horizon_years ≥ 1` the forecast
produces exactly `horizon_years * 252` future dates and exactly
`horizon_years * 252` future prices (the day loop runs that many times). -/
theorem output_length (oracle : List ℚ → ℚ) (sc : Scaler) (shocks : ℕ → ℚ)
    (closes : List ℚ) (lastDate years lb : ℕ) (hy : 1 ≤ years) :
    (predict_future_years_realistic oracle sc shocks closes lastDate years lb).1.length =
        years * 252 ∧
      (predict_future_years_realistic oracle sc shocks closes lastDate
        years lb).2.length = years * 252 :=
  ⟨bdateRange_length _ _, simRun_preds_length _ _ _ _ _ _⟩

theorem output_length_check :
    (predict_future_years_realistic oneOracle idScaler zeroShocks oneClose 0 1 1).1.length =
        1 * 252 ∧
      (predict_future_years_realistic oneOracle idScaler zeroShocks oneClose
        0 1 1).2.length = 1 * 252 :=
  output_length oneOracle idScaler zeroShocks oneClose 0 1 1 (by norm_num)

/-- A concrete 60-point close history. -/
def sixtyCloses : List ℚ := List.replicate 60 1

/-- Claim C9 counterexample: with a 60-point history and lookback 60, the
stored sequence no longer holds 60 values after one step — `np.append` on
line 318 grows it to 61, nothing is dropped. -/
theorem window_length_cex :
    ((simRun oneOracle idScaler zeroShocks sixtyCloses 60 1).1).length ≠ 60 := by
  rw [simRun_buf_length]
  simp [initWindow, takeLast_length, sixtyCloses]

/-- Claim C9 amended: the window starts with exactly `lb` scaled values,
but the stored sequence grows by one element per step (to `lb + n` after
`n` steps) instead of dropping the oldest; the predictor is nevertheless
queried with exactly the last `lb` stored values at every step, which is
the `lb`-length rolling window. -/
theorem window_length_amended (oracle : List ℚ → ℚ) (sc : Scaler) (shocks : ℕ → ℚ)
    (closes : List ℚ) (lb : ℕ) (hlb : lb ≤ closes.length) :
    (initWindow sc closes lb).length = lb ∧
      (∀ n, (simRun oracle sc shocks closes lb n).1.length = lb + n) ∧
      ∀ n, (takeLast lb (simRun oracle sc shocks closes lb n).1).length = lb := by
  have hinit : (initWindow sc closes lb).length = lb := by
    simp [initWindow, takeLast_length]
    omega
  have hbuf : ∀ n, (simRun oracle sc shocks closes lb n).1.length = lb + n := by
    intro n
    rw [simRun_buf_length, hinit]
  refine ⟨hinit, hbuf, fun n => ?_⟩
  rw [takeLast_length, hbuf]
  omega

theorem window_length_amended_check :
    (initWindow idScaler sixtyCloses 60).length = 60 ∧
      (simRun oneOracle idScaler zeroShocks sixtyCloses 60 5).1.length = 60 + 5 ∧
      (takeLast 60 (simRun oneOracle idScaler zeroShocks sixtyCloses 60 5).1).length = 60 :=
  ⟨(window_length_amended oneOracle idScaler zeroShocks sixtyCloses 60 (by simp
      [sixtyCloses])).1,
   (window_length_amended oneOracle idScaler zeroShocks sixtyCloses 60 (by simp
      [sixtyCloses])).2.1 5,
   (window_length_amended oneOracle idScaler zeroShocks sixtyCloses 60 (by simp
      [sixtyCloses])).2.2 5⟩

/-- Lines 49-51: the pydantic request model, `symbol: str` and
`years: int = 2`.  No bound of any kind is declared on `years`. -/
structure PredictionRequest where
  symbol : String
  years : ℤ

/-- Request validation as pydantic performs it for this model: `years`
only has to be an integer, so every integer (0 and negatives included)
passes. -/
def predictionRequestValid (_ : PredictionRequest) : Bool := true

/-- Line 363, `future_predictions[-1]`: `none` models the IndexError an
empty prediction array raises there, which the line-407 handler turns
into an HTTP 500 error. -/
def final_price (preds : List ℚ) : Option ℚ := preds.getLast?

/-- Claim C8 counterexample: a request with `years = 0` passes validation,
and the simulation then runs and returns an empty prediction list — it is
not rejected before simulation state is created. -/
theorem validation_cex :
    predictionRequestValid ⟨"AAPL", 0⟩ = true ∧
      (predict_future_years_realistic oneOracle idScaler zeroShocks oneClose 0 0 60).2 =
        [] :=
  ⟨rfl, rfl⟩

/-- Claim C8 amended: `horizon_years` is not validated — every request
passes the pydantic model; with `years = 0` the day loop runs zero times,
the prediction list is empty, and `future_predictions[-1]` then fails
(IndexError, surfaced as HTTP 500), not a ValidationError. -/
theorem validation_amended (r : PredictionRequest) (oracle : List ℚ → ℚ) (sc : Scaler)
    (shocks : ℕ → ℚ) (closes : List ℚ) (lastDate lb : ℕ) :
    predictionRequestValid r = true ∧
      (predict_future_years_realistic oracle sc shocks closes lastDate 0 lb).2 = [] ∧
      final_price
        (predict_future_years_realistic oracle sc shocks closes lastDate 0 lb).2 =
        none :=
  ⟨rfl, rfl, rfl⟩

/-- Line 368: simple daily returns of the simulated path,
`np.diff(p) / p[:-1]`. -/
def daily_returns (p : List ℚ) : List ℚ :=
  List.zipWith (fun a b => (b - a) / a) p p.tail

/-- `np.ufunc.accumulate`: running fold that keeps every intermediate result,
`accumulate f [x0, x1, ...] = [x0, f x0 x1, ...]`. -/
def accumulate (f : ℚ → ℚ → ℚ) : List ℚ → List ℚ
  | [] => []
  | h :: t => List.scanl f h t

/-- `np.min` of an array (junk value 0 on the empty array, where numpy
raises instead; the theorems below never hit that case). -/
def listMin : List ℚ → ℚ
  | [] => 0
  | h :: t => t.foldl min h

/-- Lines 371-372: `cumulative_returns = np.cumprod(1 + daily_returns)` and
`max_drawdown = np.min(np.minimum.accumulate(cumulative_returns /
np.maximum.accumulate(cumulative_returns)) - 1) * 100`. -/
def max_drawdown (p : List ℚ) : ℚ :=
  listMin
    ((accumulate min
        (List.zipWith (fun a b => a / b)
          (accumulate (fun a b => a * b) ((daily_returns p).map (fun r => 1 + r)))
          (accumulate max
            (accumulate (fun a b => a * b)
              ((daily_returns p).map (fun r => 1 + r)))))).map
      (fun x => x - 1)) * 100

theorem foldl_min_le (t : List ℚ) (a : ℚ) : t.foldl min a ≤ a := by
  induction t generalizing a with
  | nil => exact le_refl a
  | cons x xs ih =>
    exact le_trans (ih (min a x)) (min_le_left a x)

theorem scanl_cons_decomp (f : ℚ → ℚ → ℚ) (b : ℚ) (l : List ℚ) :
    ∃ t, List.scanl f b l = b :: t := by
  cases l with
  | nil => exact ⟨[], rfl⟩
  | cons x xs => exact ⟨List.scanl f (f b x) xs, rfl⟩

/-- Claim C5: on every path of at least two strictly positive prices, the
reported maximum drawdown percentage is nonpositive. -/
theorem max_drawdown_nonpos (p : List ℚ) (h2 : 2 ≤ p.length) (hpos : ∀ x ∈ p, 0 < x) :
    max_drawdown p ≤ 0 := by
  match p, h2, hpos with
  | a :: b :: t, _, hpos =>
    have ha : 0 < a := hpos a (by simp)
    have hb : 0 < b := hpos b (by simp)
    have hu0 : (0 : ℚ) < 1 + (b - a) / a := by
      have hx : 1 + (b - a) / a = b / a := by field_simp
      rw [hx]
      positivity
    have hdr : (daily_returns (a :: b :: t)).map (fun r => 1 + r) =
        (1 + (b - a) / a) :: (daily_returns (b :: t)).map (fun r => 1 + r) := rfl
    obtain ⟨c1, hc1⟩ := scanl_cons_decomp (fun x y => x * y) (1 + (b - a) / a)
      ((daily_returns (b :: t)).map (fun r => 1 + r))
    obtain ⟨c2, hc2⟩ := scanl_cons_decomp max (1 + (b - a) / a) c1
    unfold max_drawdown
    rw [hdr]
    simp only [accumulate, hc1, hc2, List.zipWith_cons_cons]
    obtain ⟨c3, hc3⟩ := scanl_cons_decomp min
      ((1 + (b - a) / a) / (1 + (b - a) / a)) (List.zipWith (fun x y => x / y) c1 c2)
    rw [hc3, List.map_cons]
    simp only [listMin]
    rw [div_self (ne_of_gt hu0)]
    have hfold := foldl_min_le (c3.map (fun x => x - 1)) ((1 : ℚ) - 1)
    linarith

theorem max_drawdown_nonpos_check : max_drawdown [1, 2] ≤ 0 :=
  max_drawdown_nonpos [1, 2] (by norm_num) (by decide)

/-- `np.diff` over the reals: consecutive differences `l[i+1] - l[i]`. -/
def npDiffR (l : List ℝ) : List ℝ := List.zipWith (fun a b => b - a) l l.tail

noncomputable def listMeanR (l : List ℝ) : ℝ := l.sum / l.length

/-- `np.std`: population standard deviation (square root of the mean of
squared deviations from the mean). -/
noncomputable def npStdR (l : List ℝ) : ℝ :=
  Real.sqrt ((l.map (fun x => (x - listMeanR l) ^ 2)).sum / l.length)

/-- Line 357: `prediction_std = np.std(np.diff(future_predictions)) *
np.sqrt(np.arange(len(future_predictions)))`. -/
noncomputable def prediction_std (path : List ℝ) : List ℝ :=
  (List.range path.length).map (fun i : ℕ => npStdR (npDiffR path) * Real.sqrt (i : ℝ))

/-- Line 358: `uncertainty_upper = future_predictions + prediction_std`. -/
noncomputable def uncertainty_upper (path : List ℝ) : List ℝ :=
  List.zipWith (fun a b => a + b) path (prediction_std path)

/-- Line 359: `uncertainty_lower = future_predictions - prediction_std`. -/
noncomputable def uncertainty_lower (path : List ℝ) : List ℝ :=
  List.zipWith (fun a b => a - b) path (prediction_std path)

theorem prediction_std_length (path : List ℝ) :
    (prediction_std path).length = path.length := by
  rw [prediction_std, List.length_map, List.length_range]

theorem zipWith_getD {α : Type} (f : α → α → α) (d : α) :
    ∀ (l1 l2 : List α) (i : ℕ), i < l1.length → i < l2.length →
      (List.zipWith f l1 l2).getD i d = f (l1.getD i d) (l2.getD i d)
  | [], _, i, h1, _ => absurd h1 (by simp)
  | _ :: _, [], i, _, h2 => absurd h2 (by simp)
  | a :: l1, b :: l2, 0, _, _ => rfl
  | a :: l1, b :: l2, i + 1, h1, h2 => by
    simp only [List.zipWith_cons_cons, List.getD_cons_succ]
    exact zipWith_getD f d l1 l2 i (by simpa using h1) (by simpa using h2)

theorem range_map_getD (g : ℕ → ℝ) (n i : ℕ) (h : i < n) :
    ((List.range n).map g).getD i 0 = g i := by
  rw [List.getD_eq_getElem?_getD, List.getElem?_map, List.getElem?_range h]
  rfl

theorem prediction_std_getD (path : List ℝ) (i : ℕ) (h : i < path.length) :
    (prediction_std path).getD i 0 = npStdR (npDiffR path) * Real.sqrt i := by
  rw [prediction_std]
  exact range_map_getD _ _ _ h

/-- Claim C4: entry `i` of the upper band is the path value plus the
standard deviation of the first differences of the whole finished path
times `sqrt i`, the lower band subtracts the same quantity, the two bands
are symmetric about the path, and the band width at index 0 is zero. -/
theorem uncertainty_bands (path : List ℝ) (i : ℕ) (hi : i < path.length)
    (h2 : 2 ≤ path.length) :
    (uncertainty_upper path).getD i 0 =
        path.getD i 0 + npStdR (npDiffR path) * Real.sqrt i ∧
      (uncertainty_lower path).getD i 0 =
        path.getD i 0 - npStdR (npDiffR path) * Real.sqrt i ∧
      (uncertainty_upper path).getD i 0 + (uncertainty_lower path).getD i 0 =
        2 * path.getD i 0 ∧
      (uncertainty_upper path).getD 0 0 = path.getD 0 0 ∧
      (uncertainty_lower path).getD 0 0 = path.getD 0 0 := by
  have hstd : i < (prediction_std path).length := by
    rw [prediction_std_length]
    exact hi
  have h0 : 0 < path.length := by omega
  have h0std : 0 < (prediction_std path).length := by
    rw [prediction_std_length]
    exact h0
  have hup : (uncertainty_upper path).getD i 0 =
      path.getD i 0 + npStdR (npDiffR path) * Real.sqrt i := by
    rw [uncertainty_upper, zipWith_getD _ _ _ _ _ hi hstd, prediction_std_getD _ _ hi]
  have hlo : (uncertainty_lower path).getD i 0 =
      path.getD i 0 - npStdR (npDiffR path) * Real.sqrt i := by
    rw [uncertainty_lower, zipWith_getD _ _ _ _ _ hi hstd, prediction_std_getD _ _ hi]
  have hup0 : (uncertainty_upper path).getD 0 0 = path.getD 0 0 := by
    rw [uncertainty_upper, zipWith_getD _ _ _ _ _ h0 h0std, prediction_std_getD _ _ h0]
    simp
  have hlo0 : (uncertainty_lower path).getD 0 0 = path.getD 0 0 := by
    rw [uncertainty_lower, zipWith_getD _ _ _ _ _ h0 h0std, prediction_std_getD _ _ h0]
    simp
  refine ⟨hup, hlo, ?_, hup0, hlo0⟩
  rw [hup, hlo]
  ring

theorem uncertainty_bands_check :
    (uncertainty_upper [(0 : ℝ), 1]).getD 1 0 =
        ([(0 : ℝ), 1]).getD 1 0 + npStdR (npDiffR [(0 : ℝ), 1]) * Real.sqrt ((1 : ℕ) : ℝ) ∧
      (uncertainty_lower [(0 : ℝ), 1]).getD 1 0 =
        ([(0 : ℝ), 1]).getD 1 0 - npStdR (npDiffR [(0 : ℝ), 1]) * Real.sqrt ((1 : ℕ) : ℝ) ∧
      (uncertainty_upper [(0 : ℝ), 1]).getD 1 0 +
          (uncertainty_lower [(0 : ℝ), 1]).getD 1 0 =
        2 * ([(0 : ℝ), 1]).getD 1 0 ∧
      (uncertainty_upper [(0 : ℝ), 1]).getD 0 0 = ([(0 : ℝ), 1]).getD 0 0 ∧
      (uncertainty_lower [(0 : ℝ), 1]).getD 0 0 = ([(0 : ℝ), 1]).getD 0 0 :=
  uncertainty_bands [(0 : ℝ), 1] 1 (by simp) (by simp)

/-- Lines 296-298: `daily_volatility = np.std(np.diff(np.log(
closes[-252:])))`.  With fewer than two closes the diff array is empty
and `np.std` of an empty array is NaN, modelled here as `none`. -/
noncomputable def daily_volatility (closes : List ℝ) : Option ℝ :=
  if (npDiffR ((takeLast 252 closes).map Real.log)).isEmpty then none
  else some (npStdR (npDiffR ((takeLast 252 closes).map Real.log)))

/-- Claim C6 counterexample: with a single historical close the estimated
volatility is the NaN of `np.std([])`, not the value 0. -/
theorem volatility_nan_cex :
    daily_volatility [(100 : ℝ)] = none ∧ daily_volatility [(100 : ℝ)] ≠ some 0 := by
  have h : daily_volatility [(100 : ℝ)] = none := by
    norm_num [daily_volatility, npDiffR, takeLast]
  exact ⟨h, by rw [h]; exact fun hc => Option.noConfusion hc⟩

/-- Claim C6 amended: when fewer than two closes are available the diff
of the log prices is empty, so the estimator returns the NaN of
`np.std` on an empty array (`none`) — a non-finite value propagated
onward, not the number 0 and not an exception. -/
theorem volatility_degraded_amended (closes : List ℝ) (h : closes.length < 2) :
    daily_volatility closes = none := by
  match closes, h with
  | [], _ => rfl
  | [a], _ => norm_num [daily_volatility, npDiffR, takeLast]

theorem volatility_degraded_check : daily_volatility ([] : List ℝ) = none :=
  volatility_degraded_amended [] (by norm_num)

/-!
Float-aware re-embedding of the day loop for the failure-policy claim:
values are `Option ℚ`, with `none` standing for a non-finite float (NaN
or Inf), and the oracle returns `Except Unit (Option ℚ)` so that it can
also raise an exception.  The loop body (lines 300-318) contains no
NaN/Inf check, so non-finite values simply flow through its arithmetic.
-/

def fAdd : Option ℚ → Option ℚ → Option ℚ
  | some a, some b => some (a + b)
  | _, _ => none

def fSub : Option ℚ → Option ℚ → Option ℚ
  | some a, some b => some (a - b)
  | _, _ => none

def fMul : Option ℚ → Option ℚ → Option ℚ
  | some a, some b => some (a * b)
  | _, _ => none

/-- `np.clip` built from numpy minimum/maximum, which propagate NaN. -/
def fClip : Option ℚ → Option ℚ → Option ℚ → Option ℚ
  | some x, some lo, some hi => some (npClip x lo hi)
  | _, _, _ => none

/-- Python builtin `max(a, b)`: returns `b` only when `b > a` holds;
every comparison against NaN is false, so a NaN first argument wins. -/
def pyMax : Option ℚ → Option ℚ → Option ℚ
  | some a, some b => some (max a b)
  | none, _ => none
  | some a, none => some a

def Scaler.transformF (sc : Scaler) : Option ℚ → Option ℚ
  | some x => some (sc.transform x)
  | none => none

def Scaler.inverseTransformF (sc : Scaler) : Option ℚ → Option ℚ
  | some y => some (sc.inverseTransform y)
  | none => none

/-- The float-aware step value: lines 301-314 with `v` the oracle output. -/
def nextPredOfF (sc : Scaler) (shocks : ℕ → ℚ) (lastClose : ℚ)
    (st : List (Option ℚ) × List (Option ℚ)) (i : ℕ) (v : Option ℚ) : Option ℚ :=
  if 0 < i then
    pyMax
      (fClip
        (fAdd (sc.inverseTransformF v) (fMul (sc.inverseTransformF v) (some (shocks i))))
        (fSub (st.2.getLast?.getD (some lastClose))
          (fMul (st.2.getLast?.getD (some lastClose)) (some 0.2)))
        (fAdd (st.2.getLast?.getD (some lastClose))
          (fMul (st.2.getLast?.getD (some lastClose)) (some 0.2))))
      (fMul (st.2.getLast?.getD (some lastClose)) (some 0.5))
  else sc.inverseTransformF v

def simStepF (sc : Scaler) (shocks : ℕ → ℚ) (lastClose : ℚ)
    (st : List (Option ℚ) × List (Option ℚ)) (i : ℕ) (v : Option ℚ) :
    List (Option ℚ) × List (Option ℚ) :=
  (st.1 ++ [sc.transformF (nextPredOfF sc shocks lastClose st i v)],
   st.2 ++ [nextPredOfF sc shocks lastClose st i v])

/-- The day loop with a fallible oracle: an oracle exception aborts the
whole run with that error; an ordinary (possibly NaN) output is recorded
and the loop continues. -/
def simRunF (oracle : List (Option ℚ) → Except Unit (Option ℚ)) (sc : Scaler)
    (shocks : ℕ → ℚ) (closes : List ℚ) (lb : ℕ) :
    ℕ → Except Unit (List (Option ℚ) × List (Option ℚ))
  | 0 => Except.ok ((takeLast lb closes).map (fun x => some (sc.transform x)), [])
  | n + 1 =>
    match simRunF oracle sc shocks closes lb n with
    | Except.error e => Except.error e
    | Except.ok st =>
      match oracle (takeLast lb st.1) with
      | Except.error e => Except.error e
      | Except.ok v => Except.ok (simStepF sc shocks (closes.getLast?.getD 0) st n v)

def exceptOk {ε α : Type} : Except ε α → Bool
  | Except.ok _ => true
  | Except.error _ => false

/-- Number of recorded prices in a finished run (0 for an aborted run). -/
def predsLenF : Except Unit (List (Option ℚ) × List (Option ℚ)) → ℕ
  | Except.ok st => st.2.length
  | Except.error _ => 0

/-- The recorded trajectory of a finished run ([] for an aborted run). -/
def predsOfF : Except Unit (List (Option ℚ) × List (Option ℚ)) → List (Option ℚ)
  | Except.ok st => st.2
  | Except.error _ => []

/-- A concrete two-point close history. -/
def twoCloses : List ℚ := [1, 1]

/-- Claim C7 counterexample: an oracle whose every output is NaN does not
abort the forecast — after three loop iterations the run still completes
and returns a full three-day trajectory (of NaN prices), so a trajectory
is returned to the caller. -/
theorem nan_no_abort_cex :
    exceptOk (simRunF (fun _ => Except.ok none) idScaler (fun _ => 0) twoCloses 2 3) =
        true ∧
      predsOfF (simRunF (fun _ => Except.ok none) idScaler (fun _ => 0) twoCloses 2 3) =
        [none, none, none] := by
  constructor
  · decide
  · decide

/-- Claim C7 amended: an oracle exception is fail-fast — once the run has
failed it stays failed with the same terminal error at every longer
horizon, and no trajectory is produced; but a NaN/Inf oracle output is
not detected: whenever the oracle never raises, the loop always completes
with a full-length trajectory, whatever the output values were. -/
theorem failfast_amended (oracle : List (Option ℚ) → Except Unit (Option ℚ))
    (sc : Scaler) (shocks : ℕ → ℚ) (closes : List ℚ) (lb n : ℕ) :
    ((∀ w, exceptOk (oracle w) = true) →
        exceptOk (simRunF oracle sc shocks closes lb n) = true ∧
          predsLenF (simRunF oracle sc shocks closes lb n) = n) ∧
      ∀ e m, simRunF oracle sc shocks closes lb n = Except.error e → n ≤ m →
        simRunF oracle sc shocks closes lb m = Except.error e := by
  constructor
  · intro hok
    induction n with
    | zero => exact ⟨rfl, rfl⟩
    | succ n ih =>
      obtain ⟨hik, hlen⟩ := ih
      cases hrn : simRunF oracle sc shocks closes lb n with
      | error e =>
        rw [hrn] at hik
        exact absurd hik (by simp [exceptOk])
      | ok st =>
        rw [hrn] at hlen
        cases hor : oracle (takeLast lb st.1) with
        | error e =>
          have hw := hok (takeLast lb st.1)
          rw [hor] at hw
          exact absurd hw (by simp [exceptOk])
        | ok v =>
          constructor
          · simp only [simRunF, hrn, hor]
            rfl
          · simp only [simRunF, hrn, hor, predsLenF, simStepF, List.length_append,
              List.length_cons, List.length_nil]
            simp only [predsLenF] at hlen
            omega
  · intro e m he hm
    obtain ⟨k, rfl⟩ := Nat.exists_eq_add_of_le hm
    induction k with
    | zero => exact he
    | succ k ihk =>
      rw [show n + (k + 1) = (n + k) + 1 from rfl]
      simp only [simRunF, ihk (Nat.le_add_right n k)]

theorem failfast_check :
    exceptOk
        (simRunF (fun _ => Except.ok (some 1)) idScaler (fun _ => 0) twoCloses 2 2) =
        true ∧
      predsLenF
          (simRunF (fun _ => Except.ok (some 1)) idScaler (fun _ => 0) twoCloses 2 2) =
        2 :=
  (failfast_amended (fun _ => Except.ok (some 1)) idScaler (fun _ => 0) twoCloses 2 2).1
    (fun _ => rfl)

end MUFG
